import Mathlib

/-!
Verification development for the `semcmp` crate (semver comparison tool).

The Rust sources are shallowly embedded:
  * `src/cfg.rs` — the `Config` predicate algebra (this section);
  * `src/report.rs` — the report tree;
  * `src/compare.rs` — the diff engine;
  * `src/lib.rs` — the `create_report` entry point.

Embedding conventions:
  * `Vec<T>` becomes `List T`; `String`/`&str` become `String`.
  * `BTreeSet<FreeVar>` becomes a strictly sorted `List FreeVar`
    (`btInsert` is the set insertion); only membership and the
    sorted-dedup contents of the set are observable downstream.
  * Functions that mutate `&mut self` are written as pure functions
    returning the new value.
  * Functions that push into a `&mut Report` return the list of report
    nodes they append alongside their result.
  * Rust's `iter().all/any/map` over recursive children is written with
    mutually recursive list helpers (`evaluateAll`, `simplifyList`, …);
    bridge lemmas relate them to `List.all/any/map`.
-/

/-- From the source: `FreeVar<'a>` from `src/cfg.rs`: the semantic key of an atom.
Derives `PartialOrd, Ord` in Rust: variant order first
(`TargetProperty < Feature < Flag`), then lexicographic fields. -/
inductive FreeVar : Type where
  | TargetProperty (key val : String)
  | Feature (name : String)
  | Flag (name : String)
deriving DecidableEq

/-- Rank-and-fields encoding of the derived `Ord` on `FreeVar`:
variant index, then the string fields lexicographically. -/
def FreeVar.rankKey : FreeVar → ℕ ×ₗ (String ×ₗ String)
  | .TargetProperty k v => toLex (0, toLex (k, v))
  | .Feature n => toLex (1, toLex (n, ""))
  | .Flag n => toLex (2, toLex (n, ""))

theorem FreeVar.rankKey_injective : Function.Injective FreeVar.rankKey := by
  intro a b h
  cases a <;> cases b <;>
    simp [FreeVar.rankKey, toLex, Prod.ext_iff] at h ⊢ <;> simp_all

instance : LinearOrder FreeVar :=
  LinearOrder.lift' FreeVar.rankKey FreeVar.rankKey_injective

/-- From the source: `BTreeSet::insert`: insertion into a strictly sorted duplicate-free list. -/
def btInsert (x : FreeVar) : List FreeVar → List FreeVar
  | [] => [x]
  | a :: s =>
      if x < a then x :: a :: s
      else if x = a then a :: s
      else a :: btInsert x s

/-- From the source: `enum Config` from `src/cfg.rs`: a `#[cfg]` attribute as a boolean
expression tree.  `True`/`False` are the internal-use sentinels
(`Universal`/`Never` in the design documents). -/
inductive Config : Type where
  | Not (inner : Config)
  | All (inner : List Config)
  | Any (inner : List Config)
  | TargetProperty (key val : String)
  | Feature (name : String)
  | Flag (name : String)
  | True
  | False

/-- From the source: `Config::is_universal`: structural comparison against the literal
`Config::True` (the derived `PartialEq` specialised to that literal). -/
def Config.is_universal : Config → Bool
  | .True => true
  | _ => false

mutual

/-- From the source: `Config::evaluate`: atoms are true iff present in the assignment set;
the set membership test of `BTreeSet` becomes list membership. -/
def Config.evaluate (c : Config) (vars : List FreeVar) : Bool :=
  match c with
  | .Not inner => !inner.evaluate vars
  | .All inner => Config.evaluateAll inner vars
  | .Any inner => Config.evaluateAny inner vars
  | .TargetProperty k v => decide (FreeVar.TargetProperty k v ∈ vars)
  | .Feature n => decide (FreeVar.Feature n ∈ vars)
  | .Flag n => decide (FreeVar.Flag n ∈ vars)
  | .True => true
  | .False => false

/-- From the source: `inner.iter().all(|i| i.evaluate(vars))` of the `All` arm. -/
def Config.evaluateAll (l : List Config) (vars : List FreeVar) : Bool :=
  match l with
  | [] => true
  | c :: cs => c.evaluate vars && Config.evaluateAll cs vars

/-- From the source: `inner.iter().any(|i| i.evaluate(vars))` of the `Any` arm. -/
def Config.evaluateAny (l : List Config) (vars : List FreeVar) : Bool :=
  match l with
  | [] => false
  | c :: cs => c.evaluate vars || Config.evaluateAny cs vars

end

mutual

/-- From the source: `Config::find_free_vars`: walk the tree inserting each atom's free
variable into the accumulated set `out`. -/
def Config.find_free_vars (c : Config) (out : List FreeVar) : List FreeVar :=
  match c with
  | .Not inner => inner.find_free_vars out
  | .All inner => Config.find_free_vars_list inner out
  | .Any inner => Config.find_free_vars_list inner out
  | .TargetProperty k v => btInsert (.TargetProperty k v) out
  | .Feature n => btInsert (.Feature n) out
  | .Flag n => btInsert (.Flag n) out
  | .True => out
  | .False => out

/-- From the source: `for i in inner { i.find_free_vars(out) }` of the `All`/`Any` arms. -/
def Config.find_free_vars_list (l : List Config) (out : List FreeVar) : List FreeVar :=
  match l with
  | [] => out
  | c :: cs => Config.find_free_vars_list cs (c.find_free_vars out)

end

/-- The position-search closure of `any` in `src/cfg.rs`: does the group
`g` (of the `options` list) hold `TargetProperty` vars of key `key`?
The source inspects `v[0]`; groups are non-empty by construction, so
`head?` is faithful. -/
def groupMatches (key : String) (g : List FreeVar) : Bool :=
  match g.head? with
  | some (.TargetProperty key2 _) => key == key2
  | _ => false

/-- From the source: `options[idx].push(var)`: append `v` to the `i`-th group. -/
def pushAtGroup : List (List FreeVar) → Nat → FreeVar → List (List FreeVar)
  | [], _, _ => []
  | g :: gs, 0, v => (g ++ [v]) :: gs
  | g :: gs, Nat.succ i, v => g :: pushAtGroup gs i v

/-- From the source: `options.iter().position(...)`: index of the first group matching
the key, if any. -/
def findGroupIdx (key : String) : List (List FreeVar) → Option Nat
  | [] => none
  | g :: gs =>
      if groupMatches key g then some 0
      else (findGroupIdx key gs).map (· + 1)

/-- One step of the option-building loop of `any`: `TargetProperty` vars
join the first group with the same key, everything else becomes its own
singleton group. -/
def addVar (options : List (List FreeVar)) (v : FreeVar) : List (List FreeVar) :=
  match v with
  | .TargetProperty key _ =>
      match findGroupIdx key options with
      | some idx => pushAtGroup options idx v
      | none => options ++ [[v]]
  | _ => options ++ [[v]]

/-- The option-building loop of `any`: fold `addVar` over the sorted
free-variable set. -/
def buildOptions (freeVars : List FreeVar) : List (List FreeVar) :=
  freeVars.foldl addVar []

/-- The assignments enumerated by the odometer loop of `any`: for each
group either no member (`pos == 0`) or exactly one member is selected;
the loop walks the full Cartesian product (first group fastest).  The
per-iteration `BTreeSet` is represented by the list of selected vars;
only membership in it is consumed (`Config::evaluate`). -/
def assignments : List (List FreeVar) → List (List FreeVar)
  | [] => [[]]
  | g :: gs =>
      (assignments gs).flatMap (fun rest => ([] :: g.map (fun x => [x])).map (· ++ rest))

/-- From the source: `fn any` from `src/cfg.rs`: free vars of both configs are collected
into one set, grouped into options, and `f` is tested on every
assignment of the enumeration; returns true iff some assignment
satisfies `f`. -/
def any (one other : Config) (f : List FreeVar → Bool) : Bool :=
  (assignments (buildOptions (other.find_free_vars (one.find_free_vars [])))).any f

/-- From the source: `Config::subset`. -/
def Config.subset (self other : Config) : Bool :=
  if other.is_universal then true
  -- no short-circuit if self.is_universal: other may be like Any([True, False])
  else !any self other (fun vars => self.evaluate vars && !other.evaluate vars)

/-- From the source: `Config::intersects`. -/
def Config.intersects (self other : Config) : Bool :=
  if other.is_universal || self.is_universal then true
  else any self other (fun vars => self.evaluate vars && other.evaluate vars)

/-- From the source: `Config::equivalent`. -/
def Config.equivalent (self other : Config) : Bool :=
  if self.is_universal && other.is_universal then true
  else !any self other (fun vars => self.evaluate vars ^^ other.evaluate vars)

/-- From the source: `Config::union` (receiver rewritten in place in Rust; returns the new
value here).  If either operand is an `Any` the other is flattened into
it; otherwise a fresh two-element `Any` is built, new operand first
(after the `mem::swap`). -/
def Config.union (self other : Config) : Config :=
  match self, other with
  | .Any inner, .Any inner2 => .Any (inner ++ inner2)
  | .Any inner, o => .Any (inner ++ [o])
  | s, .Any inner => .Any (inner ++ [s])
  | s, o => .Any [o, s]

/-- Embeds `*i != Config::True` (derived `PartialEq` against the leaf literal). -/
def Config.neTrue : Config → Bool
  | .True => false
  | _ => true

/-- Embeds `*i != Config::False`. -/
def Config.neFalse : Config → Bool
  | .False => false
  | _ => true

mutual

/-- From the source: `Config::simplify` (in-place in Rust; pure here).  `All` lists drop
`True` entries, `Any` lists drop `False` entries; empty lists collapse
to the identity sentinel, singletons collapse to their element;
`Not(True)` ↔ `False`.  All other shapes are left unchanged. -/
def Config.simplify (c : Config) : Config :=
  match c with
  | .Not inner =>
      match inner.simplify with
      | .True => .False
      | .False => .True
      | i => .Not i
  | .All inner =>
      match (Config.simplifyList inner).filter Config.neTrue with
      | [] => .True
      | [x] => x
      | xs => .All xs
  | .Any inner =>
      match (Config.simplifyList inner).filter Config.neFalse with
      | [] => .False
      | [x] => x
      | xs => .Any xs
  | c => c

/-- From the source: `for each in inner.iter_mut() { each.simplify(); }`. -/
def Config.simplifyList (l : List Config) : List Config :=
  match l with
  | [] => []
  | c :: cs => c.simplify :: Config.simplifyList cs

end

/-- Debug rendering (`{:?}`) of a Rust `String` (escaping of special characters
inside the string is not modelled; no modelled text needs it). -/
def strDebug (s : String) : String := "\"" ++ s ++ "\""

mutual

/-- From the source: `impl fmt::Debug for Config` from `src/cfg.rs`. -/
def Config.toDebug : Config → String
  | .Not inner => "not(" ++ inner.toDebug ++ ")"
  | .All inner => fmt_list inner "all("
  | .Any inner => fmt_list inner "any("
  | .TargetProperty k v => k ++ "=" ++ strDebug v
  | .Feature n => "feature=" ++ strDebug n
  | .Flag n => n
  | .True => "__true"
  | .False => "__false"

/-- From the source: `fn fmt_list`: the start string, the comma-separated entries, `)`. -/
def fmt_list (inner : List Config) (start : String) : String :=
  start ++ fmt_list_items inner true

/-- The `first` loop of `fmt_list`, including the closing parenthesis. -/
def fmt_list_items : List Config → Bool → String
  | [], _ => ")"
  | c :: cs, first => (if first then "" else ", ") ++ c.toDebug ++ fmt_list_items cs false

end

/-- From the source: `impl fmt::Display for Config`. -/
def Config.display : Config → String
  | .True => "always available"
  | .False => "never available"
  | c => "#[cfg(" ++ c.toDebug ++ ")]"

/-- From the source: `enum Severity` from `src/report.rs` (derived `Ord`: declaration
order `Debug < Note < Minor < Warning < Breaking < Major < Error`). -/
inductive Severity : Type where
  | Debug
  | Note
  | Minor
  | Warning
  | Breaking
  | Major
  | Error
deriving DecidableEq

/-- Rank of a severity in the derived total order. -/
def Severity.toNat : Severity → Nat
  | .Debug => 0
  | .Note => 1
  | .Minor => 2
  | .Warning => 3
  | .Breaking => 4
  | .Major => 5
  | .Error => 6

/-- The `max` of two severities under the derived `Ord`. -/
def maxSev (a b : Severity) : Severity :=
  if a.toNat ≤ b.toNat then b else a

/-- From the source: `enum Strictness` from `src/report.rs` (derived `Ord`:
`Lazy < Inherit < Strict`). -/
inductive Strictness : Type where
  | Lazy
  | Inherit
  | Strict
deriving DecidableEq

/-- Rank of a strictness in the derived total order. -/
def Strictness.toNat : Strictness → Nat
  | .Lazy => 0
  | .Inherit => 1
  | .Strict => 2

/-- From the source: `struct ReportItem` from `src/report.rs`. -/
structure ReportItem : Type where
  strict : Strictness
  severity : Severity
  text : String
deriving DecidableEq

/-- From the source: `struct Report` from `src/report.rs`: one item, an ordered list of
owned children. -/
inductive Report : Type where
  | mk (item : ReportItem) (children : List Report)

/-- Field accessor `report.item`. -/
def Report.item : Report → ReportItem
  | .mk i _ => i

/-- Field accessor `report.children`. -/
def Report.children : Report → List Report
  | .mk _ c => c

/-- From the source: `impl From<ReportItem> for Report`: a fresh childless node. -/
def Report.ofItem (i : ReportItem) : Report := ⟨i, []⟩

/-- From the source: `Report::new`: the `"Crate root"` Strict/Note root node. -/
def Report.new : Report :=
  Report.ofItem ⟨.Strict, .Note, "Crate root"⟩

mutual

/-- From the source: `Report::strip_lazy` (in Rust: mutates in place and returns whether
the caller should delete this node).  Returns the node with its `Lazy`
children already pruned by `delete_if`, and the deletion flag: the node
is deleted iff it is `Lazy` and no surviving child has strictness
`Strict` (`c.item.strict < Strictness::Strict`). -/
def Report.strip_lazy : Report → Report × Bool
  | .mk item children =>
      let kept := Report.strip_lazy_children children
      (⟨item, kept⟩,
        decide (item.strict = .Lazy) &&
          kept.all (fun c => c.item.strict.toNat < Strictness.Strict.toNat))

/-- From the source: `delete_if(&mut self.children, Report::strip_lazy)`: apply
`strip_lazy` to each child in order and keep exactly the children whose
flag came back false, preserving order (the source's swap-compaction). -/
def Report.strip_lazy_children : List Report → List Report
  | [] => []
  | c :: cs =>
      (if (c.strip_lazy).2 then [] else [(c.strip_lazy).1]) ++
        Report.strip_lazy_children cs

end

mutual

/-- From the source: `Report::highest_severity`: the maximum of the children's aggregate
severities; the node's own severity is used only when there are no
children (`…map(highest_severity).max().unwrap_or(self.item.severity)`). -/
def Report.highest_severity : Report → Severity
  | .mk item children =>
      (Report.children_max_severity children).getD item.severity

/-- From the source: `self.children.iter().map(Report::highest_severity).max()`. -/
def Report.children_max_severity : List Report → Option Severity
  | [] => none
  | c :: cs =>
      some (match Report.children_max_severity cs with
            | none => c.highest_severity
            | some m => maxSev c.highest_severity m)

end

/-- From the source: `Config::report`: push an `Inherit Note` entry about `self`'s cfg
unless the parent already entails it.  The Rust function pushes into the
report and returns a handle (the new child when pushed, the original
node otherwise); here the optional pushed item is returned and call
sites place subsequent pushes accordingly. -/
def Config.reportItem (self parent : Config) (pre : String) : Option ReportItem :=
  if parent.subset self then none
  else some ⟨.Inherit, .Note, pre ++ "#[cfg(" ++ self.toDebug ++ ")]"⟩

/- ---------------------------------------------------------------------
Specification-side predicates (stated from the spec's wording, used to
phrase the claims about the code; not part of the source). -/

mutual

/-- Spec-side: some proper descendant of the node has strictness `Strict`. -/
def Report.hasStrictDesc : Report → Bool
  | .mk _ children => Report.anyStrictNode children

/-- Spec-side: some node of the forest (at any depth) is `Strict`. -/
def Report.anyStrictNode : List Report → Bool
  | [] => false
  | c :: cs =>
      (decide (c.item.strict = .Strict) || c.hasStrictDesc) ||
        Report.anyStrictNode cs

end

mutual

/-- Spec-side: some node of the tree (root included) is `Lazy` and has
no `Strict` proper descendant — i.e. a node the pruning law says cannot
survive in a pruned report. -/
def Report.existsBadLazy : Report → Bool
  | .mk item children =>
      (decide (item.strict = .Lazy) && !Report.anyStrictNode children) ||
        Report.existsBadLazyList children

/-- Spec-side: `existsBadLazy` over a forest. -/
def Report.existsBadLazyList : List Report → Bool
  | [] => false
  | c :: cs => c.existsBadLazy || Report.existsBadLazyList cs

end

/-- Spec-side: is this config one of the sentinels `True`/`False`? -/
def Config.isSentinel : Config → Bool
  | .True => true
  | .False => true
  | _ => false

mutual

/-- Spec-side (claim C6): some sentinel occurs nested inside a
combinator — as the child of a `Not` or as a member (at any depth) of
an `All`/`Any` list. -/
def Config.hasNestedSentinel : Config → Bool
  | .Not i => i.isSentinel || i.hasNestedSentinel
  | .All l => Config.hasNestedSentinelList l
  | .Any l => Config.hasNestedSentinelList l
  | _ => false

/-- Spec-side: `hasNestedSentinel` over a combinator's member list. -/
def Config.hasNestedSentinelList : List Config → Bool
  | [] => false
  | c :: cs =>
      (c.isSentinel || c.hasNestedSentinel) || Config.hasNestedSentinelList cs

end

mutual

/-- Spec-side: fixed-point shape of `simplify`'s output: `Not` children
are non-sentinel and themselves simplified, `All` lists have at least
two members none of which is `True`, `Any` lists have at least two
members none of which is `False`. -/
def Config.isSimplified : Config → Bool
  | .Not i => i.neTrue && i.neFalse && i.isSimplified
  | .All l => decide (2 ≤ l.length) && Config.isSimplifiedAllList l
  | .Any l => decide (2 ≤ l.length) && Config.isSimplifiedAnyList l
  | _ => true

/-- Spec-side: members of a simplified `All` list. -/
def Config.isSimplifiedAllList : List Config → Bool
  | [] => true
  | c :: cs => (c.neTrue && c.isSimplified) && Config.isSimplifiedAllList cs

/-- Spec-side: members of a simplified `Any` list. -/
def Config.isSimplifiedAnyList : List Config → Bool
  | [] => true
  | c :: cs => (c.neFalse && c.isSimplified) && Config.isSimplifiedAnyList cs

end

/- ---------------------------------------------------------------------
The slice of `syntax::ast` consumed by the engine. -/

/-- From the source: `LitKind`: a string literal or anything else (carried as its debug
rendering, used only in diagnostic text). -/
inductive Lit : Type where
  | str (s : String)
  | other (dbg : String)

/-- Debug-style (`{:?}`) rendering of a literal for diagnostic text (the exact
rustc rendering is abbreviated; no claim depends on it). -/
def Lit.toDebug : Lit → String
  | .str s => "Str(" ++ strDebug s ++ ")"
  | .other d => d

/-- From the source: `MetaItemKind` (spans stripped): a bare word, a list
`name(item, …)`, or a `name = literal` pair. -/
inductive MetaItem : Type where
  | word (s : String)
  | list (s : String) (items : List MetaItem)
  | nameValue (s : String) (lit : Lit)

/-- From the source: `Attribute`: the engine only reads `attr.node.value.node`, the
`MetaItemKind`. -/
abbrev Attribute := MetaItem

mutual

/-- From the source: `enum ItemKind` restricted to the kinds the engine distinguishes.
`Ty` is modelled by its pretty-printed `{:?}` rendering (a `String`),
which is exactly what `types_equal` compares.  `Mutability`,
`Unsafety` and `Constness` are modelled as `Bool`
(`true` = `Mutable` / `Unsafe` / `Const`); `Abi` by its debug
rendering.  `Generics` and function bodies are never consumed by the
engine and are omitted.  All remaining kinds collapse into `other`,
carrying `descriptive_variant()` and whether the kind is in the
always-effectively-public set of `is_public`
(`ForeignMod | DefaultImpl | Impl | Mac`). -/
inductive ItemKind : Type where
  | mod (items : List Item)
  | const (ty : String)
  | static (ty : String) (mutbl : Bool)
  | fn (variadic : Bool) (unsafety : Bool) (constness : Bool) (abi : String)
  | other (descr : String) (alwaysPublic : Bool)

/-- From the source: `Item` (spans stripped): identifier, visibility
(`true` = `Visibility::Public`), attributes, kind. -/
inductive Item : Type where
  | mk (ident : String) (vis : Bool) (attrs : List Attribute) (node : ItemKind)

end

/-- Field accessor `item.ident.name`. -/
def Item.ident : Item → String
  | .mk i _ _ _ => i

/-- Field accessor `item.vis == Visibility::Public`. -/
def Item.vis : Item → Bool
  | .mk _ v _ _ => v

/-- Field accessor `item.attrs`. -/
def Item.attrs : Item → List Attribute
  | .mk _ _ a _ => a

/-- Field accessor `item.node`. -/
def Item.node : Item → ItemKind
  | .mk _ _ _ n => n

/-- Debug rendering of a `Mutability` value. -/
def mutabilityDebug (mutbl : Bool) : String :=
  if mutbl then "Mutable" else "Immutable"

/-- Debug rendering of an `Unsafety` value. -/
def unsafetyDebug (uns : Bool) : String :=
  if uns then "Unsafe" else "Normal"

/-- From the source: `Crate`: crate-level attributes and the root module's item list
(`Mod` is modelled by its `items` vector; `exported_macros` and
`config` are never consumed by the engine — `compare_macros` is a
TODO no-op — and are omitted). -/
structure Crate : Type where
  attrs : List Attribute
  module : List Item

/-- From the source: `fn is_public` from `src/compare.rs`. -/
def is_public (item : Item) : Bool :=
  match item.node with
  -- these nodes are always effectively public
  | .other _ alwaysPub => alwaysPub || item.vis
  -- otherwise, check the visibility field
  | _ => item.vis

/-- From the source: `fn types_equal`: compare the pretty-printed renderings
(`format!("{:?}", …)`), the documented placeholder oracle.  The `Ty`
values are modelled by those renderings. -/
def types_equal (lhs rhs : String) : Bool := lhs == rhs

/- ---------------------------------------------------------------------
`cfg_from_meta` / `cfg_from_attr_list` / `Config::new`. -/

mutual

/-- From the source: `fn cfg_from_meta` from `src/cfg.rs`; returns the parsed config and
the diagnostic entries pushed into the report.  `items.len() == 1`
followed by `items[0]` is written as a `[m]` match. -/
def cfg_from_meta (attr : MetaItem) : Config × List Report :=
  match attr with
  | .word s =>
      -- NOTE from the source: the default target_family values are ONLY
      -- "unix" and "windows".
      (if s == "unix" || s == "windows" then .TargetProperty "target_family" s
       else .Flag s, [])
  | .list s items =>
      if s == "all" then
        let (cs, ps) := cfg_from_meta_list items
        (.All cs, ps)
      else if s == "any" then
        let (cs, ps) := cfg_from_meta_list items
        (.Any cs, ps)
      else if s == "not" then
        match items with
        | [m] =>
            let (c, ps) := cfg_from_meta m
            (.Not c, ps)
        | _ => (.Flag "not", [Report.ofItem ⟨.Strict, .Error, "Non-unary #[cfg(not())]"⟩])
      else
        (.Flag s, [Report.ofItem ⟨.Strict, .Error, "Unknown #[cfg] list: " ++ s ++ "(...)"⟩])
  | .nameValue s lit =>
      match lit with
      | .str sl =>
          if s == "feature" then (.Feature sl, [])
          else if s == "target_arch" || s == "target_os" || s == "target_family" ||
              s == "target_env" || s == "target_endian" || s == "target_pointer_width" ||
              s == "target_vendor" then
            (.TargetProperty s sl, [])
          else if s == "target_has_atomic" then
            -- may be true for multiple values; treat like a flag
            (.Flag ("target_has_atomic=" ++ strDebug sl), [])
          else
            (.Flag s,
              [Report.ofItem ⟨.Strict, .Error,
                "Unknown #[cfg] key-value pair: " ++ s ++ " = " ++ lit.toDebug⟩])
      | _ =>
          (.Flag s,
            [Report.ofItem ⟨.Strict, .Error,
              "Non-string #[cfg]: " ++ s ++ " = " ++ lit.toDebug⟩])

/-- From the source: `items.iter().map(|i| cfg_from_meta(r, &i.node))` of the
`all`/`any` arms, with the pushes of each element concatenated in
order. -/
def cfg_from_meta_list (items : List MetaItem) : List Config × List Report :=
  match items with
  | [] => ([], [])
  | m :: ms =>
      let (c, ps) := cfg_from_meta m
      let (cs, pss) := cfg_from_meta_list ms
      (c :: cs, ps ++ pss)

end

/-- The per-attribute closure of `cfg_from_attr_list`'s `flat_map`: only
a `cfg(...)` list with exactly one argument contributes (the pattern
guard requires `items.len() == 1`); the non-unary `Error` branch inside
the arm is kept verbatim but is unreachable under the guard. -/
def cfg_from_attr (attr : Attribute) : Option Config × List Report :=
  match attr with
  | .list s items =>
      if s == "cfg" && items.length == 1 then
        match items with
        | [m] =>
            let (c, ps) := cfg_from_meta m
            (some c, ps)
        | _ =>
            -- `push!(r, Error, "Non-unary #[cfg]: {:?}", items)`: dead code
            (none, [Report.ofItem ⟨.Strict, .Error, "Non-unary #[cfg]"⟩])
      else (none, [])
  | _ => (none, [])

/-- From the source: `fn cfg_from_attr_list`: `None` = universal; an `All` wraps the
results when more than one attribute contributes. -/
def cfg_from_attr_list (attrs : List Attribute) : Option Config × List Report :=
  let results := attrs.map cfg_from_attr
  let all := results.filterMap (fun r => r.1)
  let pushes := results.flatMap (fun r => r.2)
  (match all with
   | [] => none
   | [c] => some c
   | cs => some (.All cs), pushes)

/-- From the source: `Config::new`: `cfg_from_attr_list(r, attrs).unwrap_or(Config::True)`. -/
def Config.new (attrs : List Attribute) : Config × List Report :=
  let (c, ps) := cfg_from_attr_list attrs
  (c.getD Config.True, ps)

/- ---------------------------------------------------------------------
`src/compare.rs`: the diff engine. -/

/-- From the source: `struct SearchResult` from `src/compare.rs`. -/
structure SearchResult : Type where
  /-- The `#[cfg]` flags on the input item -/
  item_cfg : Config
  /-- The union of `#[cfg]` flags on matching items -/
  found_cfgs : Config
  /-- Found an item with a matching name -/
  found_name : Bool
  /-- and that is also public -/
  found_pub : Bool
  /-- and that was also a matching kind -/
  found_kind : Bool

/-- The candidate loop of `search_items`.  A closure
`F: FnMut(&mut Report, &Item) -> bool` is modelled as
`Item → Bool × List Report` (its verdict and the entries it pushes).
Per candidate: a name match sets `found_name`; a public one sets
`found_pub` and parses its cfg (whose diagnostic pushes land at the
search node); if the cfgs intersect, `Config::report` may open a
`Comparing with` child under which the closure's pushes nest, and a
`true` verdict unions the candidate cfg into `found_cfgs` and sets
`found_kind`. -/
def search_items_loop (f : Item → Bool × List Report) (origName : String)
    (itemCfg : Config) : List Item → SearchResult → SearchResult × List Report
  | [], acc => (acc, [])
  | it :: rest, acc =>
      let (acc', ps) :=
        if it.ident == origName then
          let acc₁ := {acc with found_name := true}
          if is_public it then
            let acc₂ := {acc₁ with found_pub := true}
            let (localCfg, lps) := Config.new it.attrs
            if itemCfg.intersects localCfg then
              let rp := localCfg.reportItem itemCfg "Comparing with "
              let (ok, fps) := f it
              let inner := match rp with
                | some ri => [Report.mk ri fps]
                | none => fps
              (if ok then
                 {acc₂ with found_cfgs := acc₂.found_cfgs.union localCfg,
                            found_kind := true}
               else acc₂, lps ++ inner)
            else (acc₂, lps)
          else (acc₁, [])
        else (acc, [])
      let (accF, psR) := search_items_loop f origName itemCfg rest acc'
      (accF, ps ++ psR)

/-- From the source: `fn search_items`: parse the original item's cfg (reporting it
against `Config::True`), run the candidate loop starting from
`found_cfgs = Config::False`, and simplify the accumulated union. -/
def search_items (orig : Item) (items : List Item)
    (f : Item → Bool × List Report) : SearchResult × List Report :=
  let (itemCfg, cfgPs) := Config.new orig.attrs
  let selfReport := (itemCfg.reportItem Config.True "").map Report.ofItem
  let (res, loopPs) := search_items_loop f orig.ident itemCfg items
    ⟨itemCfg, Config.False, false, false, false⟩
  ({res with found_cfgs := res.found_cfgs.simplify},
   cfgPs ++ selfReport.toList ++ loopPs)

/-- The `find_item!` macro of the old-items pass of `compare_mods`:
push a `Note` node `"<kind> <name>"`, search the new items under it,
then classify: no name match → Major `"removed"`; none public → Major
`"made private"`; old cfg not a subset of the found union → Major
`"availability narrowed"`. -/
def find_item_old (kind : String) (f : Item → Bool × List Report)
    (item : Item) (newItems : List Item) : Report :=
  let (result, ps) := search_items item newItems f
  let branch : List Report :=
    if !result.found_name then [Report.ofItem ⟨.Strict, .Major, "removed"⟩]
    else if !result.found_pub then [Report.ofItem ⟨.Strict, .Major, "made private"⟩]
    else if !(result.item_cfg.subset result.found_cfgs) then
      [Report.ofItem ⟨.Strict, .Major,
        "availability narrowed:\n  Was: " ++ result.item_cfg.display ++
        "\n  Now: " ++ result.found_cfgs.display⟩]
    else []
  ⟨⟨.Strict, .Note, kind ++ " " ++ item.ident⟩, ps ++ branch⟩

/-- The `find_item!` macro of the new-items pass: a `Lazy Note` node,
searching the old items, with Minor classifications `"added"`,
`"made public"` and `"availability widened"`. -/
def find_item_new (kind : String) (f : Item → Bool × List Report)
    (item : Item) (oldItems : List Item) : Report :=
  let (result, ps) := search_items item oldItems f
  let branch : List Report :=
    if !result.found_name then [Report.ofItem ⟨.Strict, .Minor, "added"⟩]
    else if !result.found_pub then [Report.ofItem ⟨.Strict, .Minor, "made public"⟩]
    else if !(result.item_cfg.subset result.found_cfgs) then
      [Report.ofItem ⟨.Strict, .Minor,
        "availability widened:\n  Was: " ++ result.found_cfgs.display ++
        "\n  Now: " ++ result.item_cfg.display⟩]
    else []
  ⟨⟨.Lazy, .Note, kind ++ " " ++ item.ident⟩, ps ++ branch⟩

/-- The `changed!` macro from `src/report.rs`. -/
def changedText (what was now : String) : String :=
  what ++ " has changed:\n  Was: " ++ was ++ "\n  Now: " ++ now

/-- From the source: `fn compare_functions` (the implemented part: unsafety and abi). -/
def compare_functions (uns : Bool) (abi : String) (newUns : Bool)
    (newAbi : String) : List Report :=
  (if uns != newUns then
     [Report.ofItem ⟨.Strict, .Major, changedText "unsafety" (unsafetyDebug uns) (unsafetyDebug newUns)⟩]
   else []) ++
  (if abi != newAbi then
     [Report.ofItem ⟨.Strict, .Major, changedText "abi" abi newAbi⟩]
   else [])

/-- The `Const` closure of the old-items pass. -/
def const_closure (item : Item) (ty : String) (n : Item) : Bool × List Report :=
  match n.node with
  | .const newTy =>
      (true,
        if !types_equal ty newTy then
          [Report.ofItem ⟨.Strict, .Major,
            changedText ("const " ++ item.ident ++ "'s type") ty newTy⟩]
        else [])
  | .static newTy mutbl =>
      (true,
        (if mutbl then
           [Report.ofItem ⟨.Strict, .Major, "const " ++ item.ident ++ " replaced by static mut"⟩]
         else
           [Report.ofItem ⟨.Strict, .Minor, "const " ++ item.ident ++ " replaced by static"⟩]) ++
        (if !types_equal ty newTy then
           [Report.ofItem ⟨.Strict, .Major,
             changedText ("const " ++ item.ident ++ "'s type") ty newTy⟩]
         else []))
  | _ => (false, [])

/-- The `Static` closure of the old-items pass. -/
def static_closure (item : Item) (ty : String) (mutbl : Bool) (n : Item) :
    Bool × List Report :=
  match n.node with
  | .const newTy =>
      (true,
        [Report.ofItem ⟨.Strict, .Major, "static " ++ item.ident ++ " replaced by const"⟩] ++
        (if !types_equal ty newTy then
           [Report.ofItem ⟨.Strict, .Major,
             changedText ("static " ++ item.ident ++ "'s type") ty newTy⟩]
         else []))
  | .static newTy newMut =>
      (true,
        (if !types_equal ty newTy then
           [Report.ofItem ⟨.Strict, .Major,
             changedText ("static " ++ item.ident ++ "'s type") ty newTy⟩]
         else []) ++
        (if mutbl != newMut then
           [Report.ofItem ⟨.Strict, .Major,
             changedText ("static " ++ item.ident ++ "'s mutability")
               (mutabilityDebug mutbl) (mutabilityDebug newMut)⟩]
         else []))
  | _ => (false, [])

/-- The `Fn` closure of the old-items pass: on a function match, nest a
`"fn <name>"` Note node holding the const-qualifier check and
`compare_functions`. -/
def fn_closure (item : Item) (uns cons : Bool) (abi : String) (n : Item) :
    Bool × List Report :=
  match n.node with
  | .fn _ newUns newCons newAbi =>
      (true,
        [Report.mk ⟨.Strict, .Note, "fn " ++ item.ident⟩
          ((if cons && !newCons then
              [Report.ofItem ⟨.Strict, .Major, "const qualifier removed"⟩]
            else []) ++
           compare_functions uns abi newUns newAbi)])
  | _ => (false, [])

/-- Per old item of the old-items pass of `compare_mods` (the `Mod`
closure's recording of child-module pairs is recomputed separately by
`child_mod_pairs`). -/
def old_item_report (newItems : List Item) (item : Item) : List Report :=
  if !is_public item then []
  else match item.node with
  | .mod _ =>
      [find_item_old "mod"
        (fun n => (match n.node with | .mod _ => true | _ => false, []))
        item newItems]
  | .const ty => [find_item_old "const" (const_closure item ty) item newItems]
  | .static ty mutbl => [find_item_old "static" (static_closure item ty mutbl) item newItems]
  | .fn variadic uns cons abi =>
      (if variadic then
         [Report.ofItem ⟨.Strict, .Error, "non-foreign fn " ++ item.ident ++ " is variadic"⟩]
       else []) ++
      [find_item_old "fn" (fn_closure item uns cons abi) item newItems]
  | .other descr _ =>
      [Report.ofItem ⟨.Strict, .Warning, "Unhandled: " ++ descr ++ " " ++ item.ident⟩]

/-- Per new item of the new-items pass of `compare_mods`. -/
def new_item_report (oldItems : List Item) (item : Item) : List Report :=
  if !is_public item then []
  else match item.node with
  | .mod _ =>
      [find_item_new "mod"
        (fun o => (match o.node with | .mod _ => true | _ => false, []))
        item oldItems]
  | .const _ =>
      [find_item_new "const"
        (fun o => (match o.node with | .const _ => true | .static _ _ => true | _ => false, []))
        item oldItems]
  | .static _ _ =>
      [find_item_new "static"
        (fun o => (match o.node with | .const _ => true | .static _ _ => true | _ => false, []))
        item oldItems]
  | .fn _ _ _ _ =>
      [find_item_new "fn"
        (fun o => (match o.node with | .fn _ _ _ _ => true | _ => false, []))
        item oldItems]
  | .other _ _ => []

/-- The `child_mods` vector accumulated by the old-items pass: for each
public old module item, the new-tree candidates that reach the closure
(name match, public, intersecting cfg) and are modules themselves, in
traversal order. -/
def child_mod_pairs (old new : List Item) : List (Item × List Item × Item × List Item) :=
  old.flatMap (fun item =>
    if is_public item then
      match item.node with
      | .mod m =>
          new.flatMap (fun n =>
            if n.ident == item.ident && is_public n &&
                (Config.new item.attrs).1.intersects (Config.new n.attrs).1 then
              match n.node with
              | .mod m2 => [(item, m, n, m2)]
              | _ => []
            else [])
      | _ => []
    else [])

/-- From the source: `fn compare_macros`: a TODO in the source; pushes nothing. -/
def compare_macros : List Report := []

/-- From the source: `fn compare_mods`: the old-items pass, the new-items pass, then
recursion into the recorded child-module pairs (each under a
`"mod <name>"` Note node, after reporting the old and new cfgs). -/
def compare_mods (old new : List Item) : List Report :=
  old.flatMap (old_item_report new) ++
  new.flatMap (new_item_report old) ++
  (child_mod_pairs old new).attach.map (fun p =>
    let item := p.1.1
    let m := p.1.2.1
    let nItem := p.1.2.2.1
    let m2 := p.1.2.2.2
    let (oldCfg, psA) := Config.new item.attrs
    let repA := (Config.reportItem oldCfg Config.True "").map Report.ofItem
    let (_newCfg, psB) := Config.new nItem.attrs
    let repB := Config.reportItem (Config.new nItem.attrs).1 oldCfg "Comparing with "
    let inner := compare_mods m m2
    Report.mk ⟨.Strict, .Note, "mod " ++ item.ident⟩
      (psA ++ repA.toList ++ psB ++
        (match repB with
         | some ri => [Report.mk ri inner]
         | none => inner)))
termination_by sizeOf old
decreasing_by
  simp_wf
  obtain ⟨⟨it, m', nIt, m2'⟩, hp⟩ := p
  simp only at *
  simp only [child_mod_pairs] at hp
  obtain ⟨itemO, hItemO, hin⟩ := List.mem_flatMap.1 hp
  have hszItem : sizeOf itemO < sizeOf old := List.sizeOf_lt_of_mem hItemO
  obtain ⟨aId, aVis, aAttrs, aNode⟩ := itemO
  cases aNode with
  | mod mm =>
    simp only [Item.node] at hin
    split at hin
    · obtain ⟨n', _hn, hn'⟩ := List.mem_flatMap.1 hin
      split at hn'
      · obtain ⟨bId, bVis, bAttrs, bNode⟩ := n'
        cases bNode with
        | mod mm2 =>
          simp only [List.mem_singleton, Prod.mk.injEq] at hn'
          obtain ⟨-, h2, -⟩ := hn'
          subst h2
          have h5 : sizeOf m' <
              sizeOf (Item.mk aId aVis aAttrs (ItemKind.mod m')) := by
            simp
            omega
          omega
        | const ty => simp at hn'
        | static ty mu => simp at hn'
        | fn a b c d => simp at hn'
        | other a b => simp at hn'
      · simp at hn'
    · simp at hin
  | const ty => simp [Item.node] at hin
  | static ty mu => simp [Item.node] at hin
  | fn a b c d => simp [Item.node] at hin
  | other a b => simp [Item.node] at hin

/-- From the source: `fn compare_crates`: crate-level cfg coverage comparison, then
macros (no-op), then the module tree. -/
def compare_crates (old new : Crate) : List Report :=
  let (oldCfg, psA) := Config.new old.attrs
  let (newCfg, psB) := Config.new new.attrs
  psA ++ psB ++
  (if !oldCfg.subset newCfg then
     [Report.ofItem ⟨.Strict, .Major,
       "New crate reduces #[cfg] coverage\n  Was: " ++ oldCfg.display ++
       "\n  Now: " ++ newCfg.display⟩]
   else if !newCfg.subset oldCfg then
     [Report.ofItem ⟨.Strict, .Minor,
       "New crate increases #[cfg] coverage\n  Was: " ++ oldCfg.display ++
       "\n  Now: " ++ newCfg.display⟩]
   else []) ++
  compare_macros ++ compare_mods old.module new.module

/-- From the source: `fn create_report` from `src/lib.rs`.  `parse_crate` does file I/O;
its `Option<Crate>` results are parameters here, alongside the path
display strings.  The source pushes a bare
`ReportItem { severity: Error, text }` per failed side (that file
predates the `strict` field; the default `Strict` of the `push!` macro
is used here) and — notably — never invokes `strip_lazy` before
returning the report. -/
def create_report (oldPath newPath : String)
    (oldCrate newCrate : Option Crate) : Report :=
  let errs :=
    (if oldCrate.isNone then
       [Report.ofItem ⟨.Strict, .Error, "Failed to read crate at " ++ oldPath⟩]
     else []) ++
    (if newCrate.isNone then
       [Report.ofItem ⟨.Strict, .Error, "Failed to read crate at " ++ newPath⟩]
     else [])
  let body :=
    match oldCrate, newCrate with
    | some o, some n => compare_crates o n
    | _, _ => []
  Report.mk Report.new.item (errs ++ body)

mutual

/-- Spec-side (amended C6): no `True` occurs as a direct member of an
`All` list, no `False` as a direct member of an `Any` list, and no
sentinel directly under a `Not`, anywhere in the tree. -/
def Config.noMisplacedSentinel : Config → Bool
  | .Not i => !i.isSentinel && i.noMisplacedSentinel
  | .All l => Config.noTrueChildList l
  | .Any l => Config.noFalseChildList l
  | _ => true

/-- Spec-side: members of an `All` list are not `True` and recursively
well-placed. -/
def Config.noTrueChildList : List Config → Bool
  | [] => true
  | c :: cs => (c.neTrue && c.noMisplacedSentinel) && Config.noTrueChildList cs

/-- Spec-side: members of an `Any` list are not `False` and recursively
well-placed. -/
def Config.noFalseChildList : List Config → Bool
  | [] => true
  | c :: cs => (c.neFalse && c.noMisplacedSentinel) && Config.noFalseChildList cs

end

/- ---------------------------------------------------------------------
Concrete inputs used by the closed theorems below. -/

/-- A report node that is `Lazy` and whose only `Strict` descendant sits
behind an `Inherit` child. -/
def lazyInheritStrictTree : Report :=
  ⟨⟨.Lazy, .Note, "lazy scope"⟩,
    [⟨⟨.Inherit, .Note, "inherit child"⟩,
      [⟨⟨.Strict, .Major, "strict leaf"⟩, []⟩]⟩]⟩

/-- A report node whose own severity (Major) exceeds its only child's
severity (Note). -/
def majorOverNote : Report :=
  ⟨⟨.Strict, .Major, "parent entry"⟩, [⟨⟨.Strict, .Note, "child entry"⟩, []⟩]⟩

/-- An old declaration: `pub const foo: u8`. -/
def oldConstFoo : Item := ⟨"foo", true, [], .const "u8"⟩

/-- A new declaration of the same name but different kind:
`pub fn foo()` (not variadic, not unsafe, not const, Rust abi). -/
def newFnFoo : Item := ⟨"foo", true, [], .fn false false false "Rust"⟩

/-- A crate whose root module holds exactly `pub const foo: u8`. -/
def crateConstFoo : Crate := ⟨[], [oldConstFoo]⟩

/- =====================================================================
Theorems.  General lemmas first, then the claim theorems. -/

/-- Structural induction for `Config` with member hypotheses for the
`All`/`Any` lists. -/
theorem Config.inductionOn {P : Config → Prop}
    (hNot : ∀ i, P i → P (.Not i))
    (hAll : ∀ l, (∀ x ∈ l, P x) → P (.All l))
    (hAny : ∀ l, (∀ x ∈ l, P x) → P (.Any l))
    (hTP : ∀ k v, P (.TargetProperty k v))
    (hFeat : ∀ n, P (.Feature n))
    (hFlag : ∀ n, P (.Flag n))
    (hTrue : P .True)
    (hFalse : P .False) : ∀ c, P c
  | .Not i => hNot i (Config.inductionOn hNot hAll hAny hTP hFeat hFlag hTrue hFalse i)
  | .All l => hAll l (fun x hx =>
      have : sizeOf x < sizeOf (Config.All l) := by
        have := List.sizeOf_lt_of_mem hx; simp; omega
      Config.inductionOn hNot hAll hAny hTP hFeat hFlag hTrue hFalse x)
  | .Any l => hAny l (fun x hx =>
      have : sizeOf x < sizeOf (Config.Any l) := by
        have := List.sizeOf_lt_of_mem hx; simp; omega
      Config.inductionOn hNot hAll hAny hTP hFeat hFlag hTrue hFalse x)
  | .TargetProperty k v => hTP k v
  | .Feature n => hFeat n
  | .Flag n => hFlag n
  | .True => hTrue
  | .False => hFalse
termination_by c => sizeOf c

/-- Bridge: `evaluateAll` is `List.all`. -/
theorem Config.evaluateAll_eq (l : List Config) (vars : List FreeVar) :
    Config.evaluateAll l vars = l.all (fun c => c.evaluate vars) := by
  induction l with
  | nil => simp [Config.evaluateAll]
  | cons c cs ih => simp [Config.evaluateAll, ih]

/-- Bridge: `evaluateAny` is `List.any`. -/
theorem Config.evaluateAny_eq (l : List Config) (vars : List FreeVar) :
    Config.evaluateAny l vars = l.any (fun c => c.evaluate vars) := by
  induction l with
  | nil => simp [Config.evaluateAny]
  | cons c cs ih => simp [Config.evaluateAny, ih]

/-- Bridge: `simplifyList` is `List.map simplify`. -/
theorem Config.simplifyList_eq (l : List Config) :
    Config.simplifyList l = l.map Config.simplify := by
  induction l with
  | nil => simp [Config.simplifyList]
  | cons c cs ih => simp [Config.simplifyList, ih]

/-- Dropping the `True` entries of a conjunction list does not change
its conjunction. -/
theorem all_filter_neTrue (L : List Config) (vars : List FreeVar) :
    (L.filter Config.neTrue).all (fun c => c.evaluate vars) =
      L.all (fun c => c.evaluate vars) := by
  induction L with
  | nil => simp
  | cons c cs ih =>
    cases c <;> simp [Config.neTrue, Config.evaluate, ih]

/-- Dropping the `False` entries of a disjunction list does not change
its disjunction. -/
theorem any_filter_neFalse (L : List Config) (vars : List FreeVar) :
    (L.filter Config.neFalse).any (fun c => c.evaluate vars) =
      L.any (fun c => c.evaluate vars) := by
  induction L with
  | nil => simp
  | cons c cs ih =>
    cases c <;> simp [Config.neFalse, Config.evaluate, ih]

/-- From the source: `simplify` preserves `evaluate` on every assignment. -/
theorem Config.evaluate_simplify :
    ∀ c : Config, ∀ vars : List FreeVar,
      (c.simplify).evaluate vars = c.evaluate vars := by
  refine Config.inductionOn ?_ ?_ ?_ ?_ ?_ ?_ ?_ ?_
  · intro i ih vars
    cases h : i.simplify <;>
      simp only [Config.simplify, h] <;>
      simp only [Config.evaluate, ← ih vars, h] <;> simp [Config.evaluate]
  · intro l ih vars
    have hmap : (l.map Config.simplify).all (fun c => c.evaluate vars) =
        l.all (fun c => c.evaluate vars) := by
      induction l with
      | nil => simp
      | cons c cs ihl =>
        simp only [List.map_cons, List.all_cons]
        rw [ih c (by simp), ihl (fun x hx => ih x (by simp [hx]))]
    have hchain : ((Config.simplifyList l).filter Config.neTrue).all
        (fun c => c.evaluate vars) = l.all (fun c => c.evaluate vars) := by
      rw [Config.simplifyList_eq, all_filter_neTrue, hmap]
    simp only [Config.simplify]
    cases hL : (Config.simplifyList l).filter Config.neTrue with
    | nil =>
      rw [hL] at hchain
      simp only [Config.evaluate, Config.evaluateAll_eq, ← hchain, List.all_nil]
    | cons x t =>
      cases t with
      | nil =>
        rw [hL] at hchain
        simp only [Config.evaluate, Config.evaluateAll_eq, ← hchain, List.all_cons,
          List.all_nil, Bool.and_true]
      | cons y t2 =>
        rw [hL] at hchain
        simp only [Config.evaluate, Config.evaluateAll_eq, ← hchain]
  · intro l ih vars
    have hmap : (l.map Config.simplify).any (fun c => c.evaluate vars) =
        l.any (fun c => c.evaluate vars) := by
      induction l with
      | nil => simp
      | cons c cs ihl =>
        simp only [List.map_cons, List.any_cons]
        rw [ih c (by simp), ihl (fun x hx => ih x (by simp [hx]))]
    have hchain : ((Config.simplifyList l).filter Config.neFalse).any
        (fun c => c.evaluate vars) = l.any (fun c => c.evaluate vars) := by
      rw [Config.simplifyList_eq, any_filter_neFalse, hmap]
    simp only [Config.simplify]
    cases hL : (Config.simplifyList l).filter Config.neFalse with
    | nil =>
      rw [hL] at hchain
      simp only [Config.evaluate, Config.evaluateAny_eq, ← hchain, List.any_nil]
    | cons x t =>
      cases t with
      | nil =>
        rw [hL] at hchain
        simp only [Config.evaluate, Config.evaluateAny_eq, ← hchain, List.any_cons,
          List.any_nil, Bool.or_false]
      | cons y t2 =>
        rw [hL] at hchain
        simp only [Config.evaluate, Config.evaluateAny_eq, ← hchain]
  · intro k v vars; simp [Config.simplify]
  · intro n vars; simp [Config.simplify]
  · intro n vars; simp [Config.simplify]
  · intro vars; simp [Config.simplify]
  · intro vars; simp [Config.simplify]

/-- Bridge: `isSimplifiedAllList` is a `List.all`. -/
theorem Config.isSimplifiedAllList_eq (l : List Config) :
    Config.isSimplifiedAllList l = l.all (fun c => c.neTrue && c.isSimplified) := by
  induction l with
  | nil => simp [Config.isSimplifiedAllList]
  | cons c cs ih => simp [Config.isSimplifiedAllList, ih]

/-- Bridge: `isSimplifiedAnyList` is a `List.all`. -/
theorem Config.isSimplifiedAnyList_eq (l : List Config) :
    Config.isSimplifiedAnyList l = l.all (fun c => c.neFalse && c.isSimplified) := by
  induction l with
  | nil => simp [Config.isSimplifiedAnyList]
  | cons c cs ih => simp [Config.isSimplifiedAnyList, ih]

/-- Bridge: `noTrueChildList` is a `List.all`. -/
theorem Config.noTrueChildList_eq (l : List Config) :
    Config.noTrueChildList l = l.all (fun c => c.neTrue && c.noMisplacedSentinel) := by
  induction l with
  | nil => simp [Config.noTrueChildList]
  | cons c cs ih => simp [Config.noTrueChildList, ih]

/-- Bridge: `noFalseChildList` is a `List.all`. -/
theorem Config.noFalseChildList_eq (l : List Config) :
    Config.noFalseChildList l = l.all (fun c => c.neFalse && c.noMisplacedSentinel) := by
  induction l with
  | nil => simp [Config.noFalseChildList]
  | cons c cs ih => simp [Config.noFalseChildList, ih]

/-- The output of `simplify` is a fixed-point shape. -/
theorem Config.simplify_isSimplified :
    ∀ c : Config, (c.simplify).isSimplified = true := by
  refine Config.inductionOn ?_ ?_ ?_ ?_ ?_ ?_ ?_ ?_
  · intro i ih
    cases h : i.simplify <;> simp only [Config.simplify, h] <;>
      simp_all [Config.isSimplified, Config.neTrue, Config.neFalse]
  · intro l ih
    have hmem : ∀ x ∈ (Config.simplifyList l).filter Config.neTrue,
        x.neTrue = true ∧ x.isSimplified = true := by
      intro x hx
      have hx1 := List.mem_filter.1 hx
      rw [Config.simplifyList_eq] at hx1
      obtain ⟨y, hy, rfl⟩ := List.mem_map.1 hx1.1
      exact ⟨hx1.2, ih y hy⟩
    simp only [Config.simplify]
    cases hL : (Config.simplifyList l).filter Config.neTrue with
    | nil => simp [Config.isSimplified]
    | cons x t =>
      cases t with
      | nil =>
        have := hmem x (by rw [hL]; simp)
        simp [this.2]
      | cons y t2 =>
        have hlen : 2 ≤ (x :: y :: t2).length := by simp
        simp only [Config.isSimplified, Config.isSimplifiedAllList_eq,
          Bool.and_eq_true, decide_eq_true_eq, List.all_eq_true]
        refine ⟨hlen, ?_⟩
        intro a ha
        have := hmem a (by rw [hL]; exact ha)
        simp [this.1, this.2]
  · intro l ih
    have hmem : ∀ x ∈ (Config.simplifyList l).filter Config.neFalse,
        x.neFalse = true ∧ x.isSimplified = true := by
      intro x hx
      have hx1 := List.mem_filter.1 hx
      rw [Config.simplifyList_eq] at hx1
      obtain ⟨y, hy, rfl⟩ := List.mem_map.1 hx1.1
      exact ⟨hx1.2, ih y hy⟩
    simp only [Config.simplify]
    cases hL : (Config.simplifyList l).filter Config.neFalse with
    | nil => simp [Config.isSimplified]
    | cons x t =>
      cases t with
      | nil =>
        have := hmem x (by rw [hL]; simp)
        simp [this.2]
      | cons y t2 =>
        have hlen : 2 ≤ (x :: y :: t2).length := by simp
        simp only [Config.isSimplified, Config.isSimplifiedAnyList_eq,
          Bool.and_eq_true, decide_eq_true_eq, List.all_eq_true]
        refine ⟨hlen, ?_⟩
        intro a ha
        have := hmem a (by rw [hL]; exact ha)
        simp [this.1, this.2]
  · intro k v; simp [Config.simplify, Config.isSimplified]
  · intro n; simp [Config.simplify, Config.isSimplified]
  · intro n; simp [Config.simplify, Config.isSimplified]
  · simp [Config.simplify, Config.isSimplified]
  · simp [Config.simplify, Config.isSimplified]

/-- A fixed-point shape really is a fixed point of `simplify`. -/
theorem Config.simplify_of_isSimplified :
    ∀ c : Config, c.isSimplified = true → c.simplify = c := by
  refine Config.inductionOn ?_ ?_ ?_ ?_ ?_ ?_ ?_ ?_
  · intro i ih h
    simp only [Config.isSimplified, Bool.and_eq_true] at h
    obtain ⟨⟨h1, h2⟩, h3⟩ := h
    rw [Config.simplify, ih h3]
    cases i <;> simp_all [Config.neTrue, Config.neFalse]
  · intro l ih h
    simp only [Config.isSimplified, Bool.and_eq_true, decide_eq_true_eq,
      Config.isSimplifiedAllList_eq, List.all_eq_true] at h
    obtain ⟨hlen, hall⟩ := h
    have hfix : Config.simplifyList l = l := by
      rw [Config.simplifyList_eq]
      have : ∀ x ∈ l, Config.simplify x = x := by
        intro x hx
        have hx2 := hall x hx
        exact ih x hx hx2.2
      calc l.map Config.simplify = l.map id := List.map_congr_left this
        _ = l := List.map_id l
    have hfil : l.filter Config.neTrue = l := by
      rw [List.filter_eq_self]
      intro a ha
      have ha2 := hall a ha
      exact ha2.1
    rw [Config.simplify, hfix, hfil]
    match l, hlen with
    | x :: y :: t, _ => rfl
  · intro l ih h
    simp only [Config.isSimplified, Bool.and_eq_true, decide_eq_true_eq,
      Config.isSimplifiedAnyList_eq, List.all_eq_true] at h
    obtain ⟨hlen, hall⟩ := h
    have hfix : Config.simplifyList l = l := by
      rw [Config.simplifyList_eq]
      have : ∀ x ∈ l, Config.simplify x = x := by
        intro x hx
        have hx2 := hall x hx
        exact ih x hx hx2.2
      calc l.map Config.simplify = l.map id := List.map_congr_left this
        _ = l := List.map_id l
    have hfil : l.filter Config.neFalse = l := by
      rw [List.filter_eq_self]
      intro a ha
      have ha2 := hall a ha
      exact ha2.1
    rw [Config.simplify, hfix, hfil]
    match l, hlen with
    | x :: y :: t, _ => rfl
  · intro k v _; rfl
  · intro n _; rfl
  · intro n _; rfl
  · intro _; rfl
  · intro _; rfl

/-- Fixed-point shapes have no misplaced sentinel. -/
theorem Config.noMisplacedSentinel_of_isSimplified :
    ∀ c : Config, c.isSimplified = true → c.noMisplacedSentinel = true := by
  refine Config.inductionOn ?_ ?_ ?_ ?_ ?_ ?_ ?_ ?_
  · intro i ih h
    simp only [Config.isSimplified, Bool.and_eq_true] at h
    obtain ⟨⟨h1, h2⟩, h3⟩ := h
    have : i.isSentinel = false := by
      cases i <;> simp_all [Config.neTrue, Config.neFalse, Config.isSentinel]
    simp [Config.noMisplacedSentinel, this, ih h3]
  · intro l ih h
    simp only [Config.isSimplified, Bool.and_eq_true, decide_eq_true_eq,
      Config.isSimplifiedAllList_eq, List.all_eq_true] at h
    simp only [Config.noMisplacedSentinel, Config.noTrueChildList_eq, List.all_eq_true]
    intro a ha
    have ha2 := h.2 a ha
    simp [ha2.1, ih a ha ha2.2]
  · intro l ih h
    simp only [Config.isSimplified, Bool.and_eq_true, decide_eq_true_eq,
      Config.isSimplifiedAnyList_eq, List.all_eq_true] at h
    simp only [Config.noMisplacedSentinel, Config.noFalseChildList_eq, List.all_eq_true]
    intro a ha
    have ha2 := h.2 a ha
    simp [ha2.1, ih a ha ha2.2]
  · intro k v _; rfl
  · intro n _; rfl
  · intro n _; rfl
  · intro _; rfl
  · intro _; rfl

/-- Membership in a `btInsert` result. -/
theorem mem_btInsert (x y : FreeVar) (s : List FreeVar) :
    y ∈ btInsert x s ↔ y = x ∨ y ∈ s := by
  induction s with
  | nil => simp [btInsert]
  | cons a s ih =>
    simp only [btInsert]
    split
    · simp [or_comm, or_left_comm]
    · split
      · subst_vars
        constructor
        · intro h; exact Or.inr h
        · rintro (rfl | h) <;> simp_all
      · simp only [List.mem_cons, ih]
        tauto

/-- From the source: `btInsert` preserves strict sortedness. -/
theorem sorted_btInsert (x : FreeVar) (s : List FreeVar)
    (hs : s.Sorted (· < ·)) : (btInsert x s).Sorted (· < ·) := by
  induction s with
  | nil => simp [btInsert]
  | cons a s ih =>
    rw [List.sorted_cons] at hs
    simp only [btInsert]
    split
    · rename_i hlt
      rw [List.sorted_cons]
      refine ⟨?_, List.sorted_cons.2 hs⟩
      intro b hb
      rcases List.mem_cons.1 hb with rfl | hb
      · exact hlt
      · exact lt_trans hlt (hs.1 b hb)
    · split
      · exact List.sorted_cons.2 hs
      · rename_i hnlt hne
        rw [List.sorted_cons]
        refine ⟨?_, ih hs.2⟩
        intro b hb
        rw [mem_btInsert] at hb
        rcases hb with rfl | hb
        · exact lt_of_le_of_ne (not_lt.1 hnlt) (fun h => hne h.symm)
        · exact hs.1 b hb

/-- From the source: `find_free_vars` preserves strict sortedness of the accumulator. -/
theorem Config.find_free_vars_sorted :
    ∀ c : Config, ∀ out : List FreeVar, out.Sorted (· < ·) →
      (c.find_free_vars out).Sorted (· < ·) := by
  refine Config.inductionOn ?_ ?_ ?_ ?_ ?_ ?_ ?_ ?_
  · intro i ih out hout
    simpa [Config.find_free_vars] using ih out hout
  · intro l ih out hout
    simp only [Config.find_free_vars]
    induction l generalizing out with
    | nil => simpa [Config.find_free_vars_list] using hout
    | cons c cs ihl =>
      simp only [Config.find_free_vars_list]
      exact ihl (fun x hx => ih x (by simp [hx])) _ (ih c (by simp) out hout)
  · intro l ih out hout
    simp only [Config.find_free_vars]
    induction l generalizing out with
    | nil => simpa [Config.find_free_vars_list] using hout
    | cons c cs ihl =>
      simp only [Config.find_free_vars_list]
      exact ihl (fun x hx => ih x (by simp [hx])) _ (ih c (by simp) out hout)
  · intro k v out hout
    simpa [Config.find_free_vars] using sorted_btInsert _ _ hout
  · intro n out hout
    simpa [Config.find_free_vars] using sorted_btInsert _ _ hout
  · intro n out hout
    simpa [Config.find_free_vars] using sorted_btInsert _ _ hout
  · intro out hout; simpa [Config.find_free_vars] using hout
  · intro out hout; simpa [Config.find_free_vars] using hout

/-- Membership in a `find_free_vars` result: the accumulator's members
plus the members contributed by the config itself. -/
theorem Config.mem_find_free_vars :
    ∀ c : Config, ∀ out : List FreeVar, ∀ x : FreeVar,
      (x ∈ c.find_free_vars out ↔ x ∈ c.find_free_vars [] ∨ x ∈ out) := by
  refine Config.inductionOn ?_ ?_ ?_ ?_ ?_ ?_ ?_ ?_
  · intro i ih out x
    simpa [Config.find_free_vars] using ih out x
  · intro l ih out x
    simp only [Config.find_free_vars]
    induction l generalizing out with
    | nil => simp [Config.find_free_vars_list]
    | cons c cs ihl =>
      simp only [Config.find_free_vars_list]
      rw [ihl (fun y hy => ih y (by simp [hy])) (c.find_free_vars out),
        ihl (fun y hy => ih y (by simp [hy])) (c.find_free_vars []),
        ih c (by simp) out x, ih c (by simp) [] x]
      simp
      tauto
  · intro l ih out x
    simp only [Config.find_free_vars]
    induction l generalizing out with
    | nil => simp [Config.find_free_vars_list]
    | cons c cs ihl =>
      simp only [Config.find_free_vars_list]
      rw [ihl (fun y hy => ih y (by simp [hy])) (c.find_free_vars out),
        ihl (fun y hy => ih y (by simp [hy])) (c.find_free_vars []),
        ih c (by simp) out x, ih c (by simp) [] x]
      simp
      tauto
  · intro k v out x; simp [Config.find_free_vars, mem_btInsert]
  · intro n out x; simp [Config.find_free_vars, mem_btInsert]
  · intro n out x; simp [Config.find_free_vars, mem_btInsert]
  · intro out x; simp [Config.find_free_vars]
  · intro out x; simp [Config.find_free_vars]

/-- The collected free-variable set is independent of which config is
walked first: both orders produce the same sorted duplicate-free list. -/
theorem Config.find_free_vars_comm (a b : Config) :
    b.find_free_vars (a.find_free_vars []) = a.find_free_vars (b.find_free_vars []) := by
  haveI : IsAntisymm FreeVar (· < ·) :=
    ⟨fun x y h1 h2 => absurd h2 (lt_asymm h1)⟩
  have s1 : (b.find_free_vars (a.find_free_vars [])).Sorted (· < ·) :=
    Config.find_free_vars_sorted b _ (Config.find_free_vars_sorted a [] (by simp))
  have s2 : (a.find_free_vars (b.find_free_vars [])).Sorted (· < ·) :=
    Config.find_free_vars_sorted a _ (Config.find_free_vars_sorted b [] (by simp))
  have n1 := s1.nodup
  have n2 := s2.nodup
  refine List.eq_of_perm_of_sorted ?_ s1 s2
  rw [List.perm_ext_iff_of_nodup n1 n2]
  intro x
  rw [Config.mem_find_free_vars b (a.find_free_vars []) x,
    Config.mem_find_free_vars a (b.find_free_vars []) x]
  tauto

/-- From the source: `any` is insensitive to the order of its config arguments (the
domain is the joint free-variable set either way). -/
theorem any_comm (a b : Config) (f : List FreeVar → Bool) :
    any a b f = any b a f := by
  rw [any, any, Config.find_free_vars_comm]

/-- From the source: `List.any` of a pointwise disjunction splits. -/
theorem list_any_or {α : Type} (L : List α) (f g : α → Bool) :
    (L.any fun v => f v || g v) = (L.any f || L.any g) := by
  induction L with
  | nil => simp
  | cons c cs ih =>
    simp only [List.any_cons, ih]
    cases f c <;> cases g c <;> simp

/-- Boolean xor as a disjunction of the two strict directions. -/
theorem bool_xor_split (a b : Bool) : (a ^^ b) = ((a && !b) || (b && !a)) := by
  cases a <;> cases b <;> rfl

/-- From the source: `is_universal` detects exactly the literal `True`. -/
theorem Config.is_universal_iff (c : Config) :
    c.is_universal = true ↔ c = Config.True := by
  cases c <;> simp [Config.is_universal]

/-- Claim C7: For every pair of predicates, `equivalent(A, B)` returns
true iff both `subset(A, B)` and `subset(B, A)` return true, despite
the asymmetric short-circuits (`subset` short-circuits when the second
operand is the literal `Universal`; `equivalent` short-circuits only
when both operands are the literal `Universal`). -/
theorem equivalent_iff_subset_both (A B : Config) :
    A.equivalent B = (A.subset B && B.subset A) := by
  by_cases hA : A.is_universal = true <;> by_cases hB : B.is_universal = true
  · rw [Config.is_universal_iff] at hA hB
    subst hA; subst hB
    simp [Config.equivalent, Config.subset, Config.is_universal]
  · rw [Config.is_universal_iff] at hA
    subst hA
    have hf : (fun v => Config.evaluate .True v ^^ Config.evaluate B v) =
        (fun v => Config.evaluate .True v && !Config.evaluate B v) := by
      funext v
      simp only [Config.evaluate]
      cases B.evaluate v <;> rfl
    simp only [Config.equivalent, Config.subset, Config.is_universal, hB,
      Bool.true_and, Bool.false_or, if_false, Bool.and_true, hf]
    simp [Config.is_universal]
  · rw [Config.is_universal_iff] at hB
    subst hB
    have hf : (fun v => Config.evaluate A v ^^ Config.evaluate .True v) =
        (fun v => Config.evaluate .True v && !Config.evaluate A v) := by
      funext v
      simp only [Config.evaluate]
      cases A.evaluate v <;> rfl
    have hc : any A .True (fun v => Config.evaluate A v ^^ Config.evaluate .True v) =
        any .True A (fun v => Config.evaluate .True v && !Config.evaluate A v) := by
      rw [hf, any_comm]
    simp only [Config.equivalent, Config.subset, Config.is_universal, hA,
      Bool.and_false, if_false, if_true, Bool.true_and, hc]
    simp [Config.is_universal, hA]
  · have hsplit : (fun v => Config.evaluate A v ^^ Config.evaluate B v) =
        (fun v => (Config.evaluate A v && !Config.evaluate B v) ||
                  (Config.evaluate B v && !Config.evaluate A v)) := by
      funext v
      exact bool_xor_split _ _
    have hor : any A B (fun v => Config.evaluate A v ^^ Config.evaluate B v) =
        (any A B (fun v => Config.evaluate A v && !Config.evaluate B v) ||
         any A B (fun v => Config.evaluate B v && !Config.evaluate A v)) := by
      rw [hsplit, any, list_any_or, ← any, ← any]
    have hc : any A B (fun v => Config.evaluate B v && !Config.evaluate A v) =
        any B A (fun v => Config.evaluate B v && !Config.evaluate A v) :=
      any_comm A B _
    simp only [Config.equivalent, Config.subset, hA, hB, Bool.and_self,
      if_false, hor, hc, Bool.not_or]
    simp

/-- Claim C3, counterexample: The claim's "iff an enumerated assignment
satisfies both" semantics fails for `intersects` at the operand pair
`(Universal, Never)`: the short-circuit answers true while no
enumerated assignment satisfies both operands. -/
theorem intersects_universal_never_counterexample :
    Config.intersects .True .False = true ∧
    (assignments (buildOptions
        ((Config.False).find_free_vars ((Config.True).find_free_vars [])))).any
      (fun v => (Config.True).evaluate v && (Config.False).evaluate v) = false := by
  constructor
  · simp [Config.intersects, Config.is_universal]
  · simp [Config.find_free_vars, buildOptions, assignments, Config.evaluate]

/-- Claim C3, amended: `intersects(A, B)` returns true iff either
operand is the literal `Universal` or some assignment of the grouped
free-variable enumeration satisfies both; the `Universal`
short-circuit therefore agrees with the existential semantics except
when the other operand is unsatisfiable. -/
theorem intersects_iff_universal_or_satisfiable (A B : Config) :
    A.intersects B = true ↔
      A = Config.True ∨ B = Config.True ∨
      ∃ v ∈ assignments (buildOptions (B.find_free_vars (A.find_free_vars []))),
        (A.evaluate v && B.evaluate v) = true := by
  rw [Config.intersects]
  by_cases hc : (B.is_universal || A.is_universal) = true
  · simp only [hc, if_true, true_iff]
    rcases Bool.or_eq_true_iff.1 hc with h | h
    · exact Or.inr (Or.inl ((Config.is_universal_iff B).1 h))
    · exact Or.inl ((Config.is_universal_iff A).1 h)
  · rw [if_neg hc]
    rw [Bool.or_eq_true_iff] at hc
    push_neg at hc
    obtain ⟨hB, hA⟩ := hc
    have hA' : A ≠ Config.True := by
      intro h; subst h; simp [Config.is_universal] at hA
    have hB' : B ≠ Config.True := by
      intro h; subst h; simp [Config.is_universal] at hB
    rw [any, List.any_eq_true]
    constructor
    · rintro ⟨v, hv, hf⟩
      exact Or.inr (Or.inr ⟨v, hv, hf⟩)
    · rintro (h | h | ⟨v, hv, hf⟩)
      · exact absurd h hA'
      · exact absurd h hB'
      · exact ⟨v, hv, hf⟩

/-- The derived order puts every `TargetProperty` before every `Flag`. -/
theorem targetProperty_lt_flag (k v n : String) :
    FreeVar.TargetProperty k v < FreeVar.Flag n := by
  show FreeVar.rankKey (.TargetProperty k v) < FreeVar.rankKey (.Flag n)
  simp only [FreeVar.rankKey]
  rw [Prod.Lex.lt_iff]
  left
  norm_num

/-- Claim C9: Two same-key `TargetProperty` atoms with different values
never intersect (the enumeration groups them into a single multi-valued
choice), while a `Flag` and a `TargetProperty` are independent binary
choices and always intersect. -/
theorem targetProperty_grouping_intersects :
    (∀ k v₁ v₂ : String, v₁ ≠ v₂ →
      (Config.TargetProperty k v₁).intersects (Config.TargetProperty k v₂) = false) ∧
    (∀ fl k v : String,
      (Config.Flag fl).intersects (Config.TargetProperty k v) = true) := by
  constructor
  · intro k v₁ v₂ hne
    set a := FreeVar.TargetProperty k v₁ with ha
    set b := FreeVar.TargetProperty k v₂ with hb
    have hab : b ≠ a := by simp [ha, hb, Ne.symm hne]
    have h1 : (Config.TargetProperty k v₁).find_free_vars [] = [a] := by
      simp [Config.find_free_vars, btInsert]
    have h2 : (Config.TargetProperty k v₂).find_free_vars [a] = btInsert b [a] := by
      simp [Config.find_free_vars]
    have hgm : ∀ x, groupMatches k [FreeVar.TargetProperty k x] = true := by
      intro x; simp [groupMatches]
    have hbuild : ∀ u w : FreeVar, u = FreeVar.TargetProperty k v₁ ∨ u = FreeVar.TargetProperty k v₂ →
        w = FreeVar.TargetProperty k v₁ ∨ w = FreeVar.TargetProperty k v₂ →
        buildOptions [u, w] = [[u, w]] := by
      rintro u w (rfl | rfl) (rfl | rfl) <;>
        simp [buildOptions, addVar, findGroupIdx, groupMatches, pushAtGroup]
    have hassign : ∀ u w : FreeVar, assignments [[u, w]] = [[], [u], [w]] := by
      intro u w; simp [assignments]
    have hf : ∀ u w : FreeVar,
        u = FreeVar.TargetProperty k v₁ ∨ u = FreeVar.TargetProperty k v₂ →
        w = FreeVar.TargetProperty k v₁ ∨ w = FreeVar.TargetProperty k v₂ →
        ([[], [u], [w]] : List (List FreeVar)).any
          (fun vars => (Config.TargetProperty k v₁).evaluate vars &&
            (Config.TargetProperty k v₂).evaluate vars) = false := by
      rintro u w (rfl | rfl) (rfl | rfl) <;>
        simp [Config.evaluate, hne, Ne.symm hne]
    rw [Config.intersects]
    rw [if_neg (by simp [Config.is_universal])]
    rw [any, h1, h2]
    rcases lt_trichotomy b a with hlt | heq | hgt
    · have hins : btInsert b [a] = [b, a] := by simp [btInsert, hlt]
      rw [hins, hbuild b a (Or.inr rfl) (Or.inl rfl), hassign]
      exact hf b a (Or.inr rfl) (Or.inl rfl)
    · exact absurd heq hab
    · have hins : btInsert b [a] = [a, b] := by
        simp [btInsert, if_neg (not_lt.2 (le_of_lt hgt)), hab]
      rw [hins, hbuild a b (Or.inl rfl) (Or.inr rfl), hassign]
      exact hf a b (Or.inl rfl) (Or.inr rfl)
  · intro fl k v
    set a := FreeVar.Flag fl with ha
    set b := FreeVar.TargetProperty k v with hb
    have h1 : (Config.Flag fl).find_free_vars [] = [a] := by
      simp [Config.find_free_vars, btInsert]
    have h2 : (Config.TargetProperty k v).find_free_vars [a] = [b, a] := by
      simp [Config.find_free_vars, btInsert, ha, hb, targetProperty_lt_flag]
    have hbuild : buildOptions [b, a] = [[b], [a]] := by
      simp [buildOptions, addVar, findGroupIdx, groupMatches, pushAtGroup, hb, ha]
    have hassign : assignments [[b], [a]] = [[], [b], [a], [b, a]] := by
      simp [assignments]
    rw [Config.intersects]
    rw [if_neg (by simp [Config.is_universal])]
    rw [any, h1, h2, hbuild, hassign]
    simp [Config.evaluate, ha, hb]

/-- Claim C8: `simplify` preserves `evaluate` on every assignment and is
idempotent. -/
theorem simplify_preserves_and_idempotent (c : Config) :
    (∀ vars : List FreeVar, (c.simplify).evaluate vars = c.evaluate vars) ∧
    (c.simplify).simplify = c.simplify :=
  ⟨Config.evaluate_simplify c,
   Config.simplify_of_isSimplified _ (Config.simplify_isSimplified c)⟩

/-- Claim C6, counterexample: `simplify(All [Never, Never])` keeps both
sentinels inside the combinator: `Never` entries are *not* removed from
`All` lists. -/
theorem simplify_keeps_never_in_all_counterexample :
    Config.hasNestedSentinel (Config.simplify (.All [.False, .False])) = true := by
  simp [Config.simplify, Config.simplifyList, Config.neTrue,
    Config.hasNestedSentinel, Config.hasNestedSentinelList, Config.isSentinel]

/-- Claim C6, amended: After `simplify`, no `Universal` survives as a
direct member of an `All` list, no `Never` as a direct member of an
`Any` list, and no sentinel directly under a `Not` — but sentinels of
the opposite polarity may survive inside `All`/`Any` lists. -/
theorem simplify_noMisplacedSentinel (c : Config) :
    (c.simplify).noMisplacedSentinel = true :=
  Config.noMisplacedSentinel_of_isSimplified _ (Config.simplify_isSimplified c)

/-- Witness for C9 at the spec's concrete scenario inputs. -/
theorem targetProperty_grouping_intersects_witness :
    (Config.TargetProperty "target_os" "linux").intersects
      (Config.TargetProperty "target_os" "windows") = false ∧
    (Config.Flag "arbitrary").intersects
      (Config.TargetProperty "target_family" "unix") = true :=
  ⟨targetProperty_grouping_intersects.1 "target_os" "linux" "windows" (by decide),
   targetProperty_grouping_intersects.2 "arbitrary" "target_family" "unix"⟩

/-- Claim C1: `strip_lazy` marks a `Lazy` node for deletion even though it
has a `Strict` descendant behind an `Inherit` child (the code checks
only the direct children's own strictness), and a parent holding such a
node ends up with no children after the pass — the claim says the node
must survive. -/
theorem strip_lazy_deletes_lazy_with_nested_strict :
    Report.hasStrictDesc lazyInheritStrictTree = true ∧
    (Report.strip_lazy lazyInheritStrictTree).2 = true ∧
    (Report.strip_lazy ⟨⟨.Strict, .Note, "root"⟩, [lazyInheritStrictTree]⟩).1.children = [] := by
  refine ⟨?_, ?_, ?_⟩ <;>
    simp [lazyInheritStrictTree, Report.hasStrictDesc, Report.anyStrictNode,
      Report.strip_lazy, Report.strip_lazy_children, Report.item,
      Report.children, Strictness.toNat]

/-- Claim C2: `highest_severity` returns the children's maximum and drops
the node's own severity whenever children exist: a Major node with a
single Note child aggregates to Note, below its own severity. -/
theorem highest_severity_ignores_own_severity :
    majorOverNote.item.severity = Severity.Major ∧
    Report.highest_severity majorOverNote = Severity.Note := by
  constructor <;>
    simp [majorOverNote, Report.highest_severity, Report.children_max_severity,
      Report.item, maxSev, Severity.toNat]

/-- When no child-module pairs are recorded, `compare_mods` is just the
two passes. -/
theorem compare_mods_no_pairs (old new : List Item)
    (h : child_mod_pairs old new = []) :
    compare_mods old new =
      old.flatMap (old_item_report new) ++ new.flatMap (new_item_report old) := by
  rw [compare_mods, h]
  simp

/-- Claim C5: `create_report` returns the comparison's report without ever
invoking `strip_lazy`: for the crates holding a single unchanged
`pub const foo: u8`, the returned tree still has a `Lazy` node with no
`Strict` descendant (the speculative `"const foo"` scope of the
new-items pass), which one application of `strip_lazy` would remove. -/
theorem create_report_not_pruned :
    Report.existsBadLazy
      (create_report "inputs/old.rs" "inputs/new.rs"
        (some crateConstFoo) (some crateConstFoo)) = true ∧
    Report.existsBadLazy
      ((create_report "inputs/old.rs" "inputs/new.rs"
        (some crateConstFoo) (some crateConstFoo)).strip_lazy).1 = false := by
  have hrep : create_report "inputs/old.rs" "inputs/new.rs"
      (some crateConstFoo) (some crateConstFoo) =
      ⟨⟨.Strict, .Note, "Crate root"⟩,
        [⟨⟨.Strict, .Note, "const foo"⟩, []⟩,
         ⟨⟨.Lazy, .Note, "const foo"⟩, []⟩]⟩ := by
    rw [create_report]
    simp only [compare_crates, crateConstFoo]
    rw [compare_mods_no_pairs _ _
      (by simp [child_mod_pairs, oldConstFoo, Item.node, is_public, Item.vis])]
    simp [compare_macros, Report.new, Report.ofItem, Report.item, Report.children,
      old_item_report, new_item_report, find_item_old, find_item_new,
      search_items, search_items_loop, Config.new, cfg_from_attr_list,
      cfg_from_attr, Config.reportItem, Config.subset, Config.intersects,
      Config.is_universal, any, Config.find_free_vars, buildOptions, assignments,
      Config.evaluate, Config.union, Config.simplify, Config.simplifyList,
      Config.neTrue, Config.neFalse, const_closure, Item.ident, Item.vis,
      Item.attrs, Item.node, is_public, types_equal, Config.display, oldConstFoo]
  rw [hrep]
  constructor
  · simp [Report.existsBadLazy, Report.existsBadLazyList, Report.anyStrictNode,
      Report.item, Report.children]
  · simp [Report.strip_lazy, Report.strip_lazy_children, Report.item,
      Report.children, Strictness.toNat, Report.existsBadLazy,
      Report.existsBadLazyList, Report.anyStrictNode]

/-- Claim C4, counterexample: With an old `pub const foo` and a new tree
whose only same-named exported item is a function (kind predicate
fails), the emitted entry is the Major `"availability narrowed"` one
(`Now: never available`) — not a `"no longer a const"` entry, which the
engine never produces. -/
theorem no_longer_kind_counterexample :
    find_item_old "const" (const_closure oldConstFoo "u8") oldConstFoo [newFnFoo] =
      ⟨⟨.Strict, .Note, "const foo"⟩,
        [⟨⟨.Strict, .Major,
          "availability narrowed:\n  Was: always available\n  Now: never available"⟩, []⟩]⟩ := by
  simp [find_item_old, search_items, search_items_loop, Config.new,
    cfg_from_attr_list, cfg_from_attr, Config.reportItem, Config.subset,
    Config.intersects, Config.is_universal, any, Config.find_free_vars,
    buildOptions, assignments, Config.evaluate, Config.union, Config.simplify,
    Config.simplifyList, Config.neTrue, Config.neFalse, const_closure,
    Item.ident, Item.vis, Item.attrs, Item.node, is_public, types_equal,
    Config.display, Report.ofItem, oldConstFoo, newFnFoo]

/-- Claim C10: A `#[cfg(...)]` attribute with argument count ≠ 1 is
silently skipped by `Config::new`: the result (config and report
pushes) is exactly that of the remaining attributes, and no `Error`
entry is pushed (the non-unary error branch is unreachable under the
single-argument pattern guard). -/
theorem config_new_skips_non_unary_cfg (pre post : List Attribute)
    (items : List MetaItem) (h : items.length ≠ 1) :
    Config.new (pre ++ MetaItem.list "cfg" items :: post) = Config.new (pre ++ post) := by
  have hone : cfg_from_attr (MetaItem.list "cfg" items) = (none, []) := by
    rw [cfg_from_attr, if_neg (by simp [h])]
    intro m hm
    exact h (by simp [hm])
  rw [Config.new, Config.new, cfg_from_attr_list, cfg_from_attr_list]
  simp [hone]

/-- Witness for C10 at `#[cfg(a, b)]`. -/
theorem config_new_skips_non_unary_cfg_witness :
    ([MetaItem.word "a", MetaItem.word "b"] : List MetaItem).length ≠ 1 ∧
    Config.new [MetaItem.list "cfg" [MetaItem.word "a", MetaItem.word "b"]] =
      Config.new [] ∧
    Config.new [] = (Config.True, []) :=
  ⟨by decide,
   config_new_skips_non_unary_cfg [] [] [MetaItem.word "a", MetaItem.word "b"] (by decide),
   by simp [Config.new, cfg_from_attr_list]⟩

/-- One step of the `search_items` candidate loop: there is an updated
accumulator (never touching `item_cfg`, only raising `found_kind`,
unioning `found_cfgs` only together with setting `found_kind`, and
setting `found_pub` only alongside `found_name`) from which the loop
continues over the tail. -/
theorem search_items_loop_cons (f : Item → Bool × List Report)
    (nm : String) (cfg : Config) (it : Item) (rest : List Item)
    (acc : SearchResult) :
    ∃ acc' ps,
      search_items_loop f nm cfg (it :: rest) acc =
        ((search_items_loop f nm cfg rest acc').1,
          ps ++ (search_items_loop f nm cfg rest acc').2) ∧
      acc'.item_cfg = acc.item_cfg ∧
      (acc.found_kind = true → acc'.found_kind = true) ∧
      (acc'.found_kind = false → acc'.found_cfgs = acc.found_cfgs) ∧
      ((acc.found_pub = true → acc.found_name = true) →
        (acc'.found_pub = true → acc'.found_name = true)) := by
  rcases hcn : Config.new it.attrs with ⟨lc, lps⟩
  rcases hfit : f it with ⟨ok, fps⟩
  by_cases h1 : (it.ident == nm) = true
  · by_cases h2 : is_public it = true
    · by_cases h3 : cfg.intersects lc = true
      · cases ok with
        | true =>
          refine ⟨{acc with found_name := true, found_pub := true, found_cfgs := acc.found_cfgs.union lc, found_kind := true}, lps ++ (match lc.reportItem cfg "Comparing with " with | some ri => [Report.mk ri fps] | none => fps), ?_, by simp, by simp, by simp, by simp⟩
          rw [search_items_loop]
          simp only [h1, h2, h3, hcn, hfit, if_true]
        | false =>
          refine ⟨{acc with found_name := true, found_pub := true}, lps ++ (match lc.reportItem cfg "Comparing with " with | some ri => [Report.mk ri fps] | none => fps), ?_, by simp, by simp, by simp, by simp⟩
          rw [search_items_loop]
          simp only [h1, h2, h3, hcn, hfit, if_true, Bool.false_eq_true, if_false]
      · refine ⟨{acc with found_name := true, found_pub := true}, lps, ?_, by simp, by simp, by simp, by simp⟩
        rw [search_items_loop]
        simp only [h1, h2, h3, hcn, if_true, Bool.false_eq_true, if_false]
    · refine ⟨{acc with found_name := true}, [], ?_, by simp, by simp, by simp, by simp⟩
      rw [search_items_loop]
      simp only [h1, h2, if_true, Bool.false_eq_true, if_false]
  · refine ⟨acc, [], ?_, rfl, fun h => h, fun _ => rfl, fun h => h⟩
    rw [search_items_loop]
    simp only [h1, Bool.false_eq_true, if_false]

/-- From the source: `found_kind` can only rise over the candidate loop. -/
theorem search_items_loop_kind_mono (f : Item → Bool × List Report)
    (nm : String) (cfg : Config) :
    ∀ (items : List Item) (acc : SearchResult), acc.found_kind = true →
      (search_items_loop f nm cfg items acc).1.found_kind = true := by
  intro items
  induction items with
  | nil =>
    intro acc h
    simpa [search_items_loop] using h
  | cons it rest ih =>
    intro acc h
    obtain ⟨acc', ps, heq, _, hmono, _, _⟩ :=
      search_items_loop_cons f nm cfg it rest acc
    rw [heq]
    simpa using ih acc' (hmono h)

/-- Invariants of the whole candidate loop, by induction from
`search_items_loop_cons`. -/
theorem search_items_loop_invariant (f : Item → Bool × List Report)
    (nm : String) (cfg : Config) :
    ∀ (items : List Item) (acc : SearchResult),
      ((search_items_loop f nm cfg items acc).1.item_cfg = acc.item_cfg) ∧
      ((search_items_loop f nm cfg items acc).1.found_kind = false →
        (search_items_loop f nm cfg items acc).1.found_cfgs = acc.found_cfgs) ∧
      ((acc.found_pub = true → acc.found_name = true) →
        (search_items_loop f nm cfg items acc).1.found_pub = true →
        (search_items_loop f nm cfg items acc).1.found_name = true) := by
  intro items
  induction items with
  | nil =>
    intro acc
    simp [search_items_loop]
  | cons it rest ih =>
    intro acc
    obtain ⟨acc', ps, heq, hicfg, hkmono, hcfgs, hpn⟩ :=
      search_items_loop_cons f nm cfg it rest acc
    obtain ⟨i1, i3, i4⟩ := ih acc'
    rw [heq]
    refine ⟨by simpa using i1.trans hicfg, ?_, ?_⟩
    · intro hk
      simp only at hk
      by_cases hk' : acc'.found_kind = true
      · exfalso
        have := search_items_loop_kind_mono f nm cfg rest acc' hk'
        simp [this] at hk
      · have h3 := i3 hk
        simp only at h3
        rw [h3, hcfgs (by simpa using hk')]
    · intro hinv hp
      exact i4 (hpn hinv) (by simpa using hp)

/-- Claim C4, amended: When same-named exported candidates exist but none
passes the kind predicate, `found_cfgs` stays `Never`; the old-items
`find_item!` then reports the single Major `"availability narrowed …
Now: never available"` entry (none at all if the old cfg is
unsatisfiable over its enumeration) — there is no `"no longer a
<kind>"` outcome, the computed `found_kind` flag being never read. -/
theorem find_item_old_no_kind_match (kind : String)
    (f : Item → Bool × List Report) (item : Item) (newItems : List Item)
    (hpub : (search_items item newItems f).1.found_pub = true)
    (hkind : (search_items item newItems f).1.found_kind = false) :
    find_item_old kind f item newItems =
      Report.mk ⟨.Strict, .Note, kind ++ " " ++ item.ident⟩
        ((search_items item newItems f).2 ++
          (if (search_items item newItems f).1.item_cfg.subset Config.False then []
           else [Report.ofItem ⟨.Strict, .Major,
             "availability narrowed:\n  Was: " ++
               (search_items item newItems f).1.item_cfg.display ++
               "\n  Now: never available"⟩])) := by
  rcases hcn : Config.new item.attrs with ⟨icfg, cfgPs⟩
  rcases hloop : search_items_loop f item.ident icfg newItems
      ⟨icfg, Config.False, false, false, false⟩ with ⟨res0, loopPs⟩
  have hsearch : search_items item newItems f =
      ({res0 with found_cfgs := res0.found_cfgs.simplify},
        cfgPs ++ ((icfg.reportItem Config.True "").map Report.ofItem).toList ++ loopPs) := by
    rw [search_items]
    simp only [hcn, hloop]
  obtain ⟨inv1, inv2, inv3⟩ := search_items_loop_invariant f item.ident icfg
    newItems ⟨icfg, Config.False, false, false, false⟩
  rw [hloop] at inv1 inv2 inv3
  simp only at inv1 inv2 inv3
  rw [hsearch] at hpub hkind
  simp only at hpub hkind
  have hcfgs : res0.found_cfgs = Config.False := inv2 hkind
  have hname : res0.found_name = true := inv3 (by intro h; simp at h) hpub
  have hsimp : (Config.False).simplify = Config.False := by simp [Config.simplify]
  rw [find_item_old, hsearch]
  simp only [hcfgs, hsimp, hname, hpub, Bool.not_true, Bool.false_eq_true,
    if_false, Config.display]
  cases hsub : icfg.subset Config.False with
  | true =>
    have : res0.item_cfg.subset Config.False = true := by rw [inv1]; exact hsub
    simp [this, inv1, hsub]
  | false =>
    have : res0.item_cfg.subset Config.False = false := by rw [inv1]; exact hsub
    simp [this, inv1, hsub, Config.display, String.append_assoc]

/-- Witness for the amended C4 at the concrete const-vs-fn inputs. -/
theorem find_item_old_no_kind_match_witness :
    (search_items oldConstFoo [newFnFoo] (const_closure oldConstFoo "u8")).1.found_pub = true ∧
    (search_items oldConstFoo [newFnFoo] (const_closure oldConstFoo "u8")).1.found_kind = false ∧
    find_item_old "const" (const_closure oldConstFoo "u8") oldConstFoo [newFnFoo] =
      Report.mk ⟨.Strict, .Note, "const" ++ " " ++ oldConstFoo.ident⟩
        ((search_items oldConstFoo [newFnFoo] (const_closure oldConstFoo "u8")).2 ++
          (if (search_items oldConstFoo [newFnFoo]
                (const_closure oldConstFoo "u8")).1.item_cfg.subset Config.False then []
           else [Report.ofItem ⟨.Strict, .Major,
             "availability narrowed:\n  Was: " ++
               (search_items oldConstFoo [newFnFoo]
                 (const_closure oldConstFoo "u8")).1.item_cfg.display ++
               "\n  Now: never available"⟩])) :=
  ⟨by
    simp [search_items, search_items_loop, Config.new, cfg_from_attr_list,
      cfg_from_attr, Config.reportItem, Config.subset, Config.intersects,
      Config.is_universal, any, Config.find_free_vars, buildOptions, assignments,
      Config.evaluate, Config.union, Config.simplify, Config.simplifyList,
      Config.neTrue, Config.neFalse, const_closure, Item.ident, Item.vis,
      Item.attrs, Item.node, is_public, oldConstFoo, newFnFoo],
   by
    simp [search_items, search_items_loop, Config.new, cfg_from_attr_list,
      cfg_from_attr, Config.reportItem, Config.subset, Config.intersects,
      Config.is_universal, any, Config.find_free_vars, buildOptions, assignments,
      Config.evaluate, Config.union, Config.simplify, Config.simplifyList,
      Config.neTrue, Config.neFalse, const_closure, Item.ident, Item.vis,
      Item.attrs, Item.node, is_public, oldConstFoo, newFnFoo],
   find_item_old_no_kind_match "const" (const_closure oldConstFoo "u8")
     oldConstFoo [newFnFoo]
     (by
       simp [search_items, search_items_loop, Config.new, cfg_from_attr_list,
         cfg_from_attr, Config.reportItem, Config.subset, Config.intersects,
         Config.is_universal, any, Config.find_free_vars, buildOptions,
         assignments, Config.evaluate, Config.union, Config.simplify,
         Config.simplifyList, Config.neTrue, Config.neFalse, const_closure,
         Item.ident, Item.vis, Item.attrs, Item.node, is_public, oldConstFoo,
         newFnFoo])
     (by
       simp [search_items, search_items_loop, Config.new, cfg_from_attr_list,
         cfg_from_attr, Config.reportItem, Config.subset, Config.intersects,
         Config.is_universal, any, Config.find_free_vars, buildOptions,
         assignments, Config.evaluate, Config.union, Config.simplify,
         Config.simplifyList, Config.neTrue, Config.neFalse, const_closure,
         Item.ident, Item.vis, Item.attrs, Item.node, is_public, oldConstFoo,
         newFnFoo])⟩
